import Mathlib

/- Shallow embedding of src/filter/src/firdes.c from the liquid-dsp FIR
   filter design and analysis module.

   Modelling choices:
   - C float values are modelled as exact rationals for the purely
     arithmetic functions and as real numbers for the functions that call
     transcendental library routines.
   - Functions that print a diagnostic and call exit on invalid input are
     modelled as Except-valued functions returning Except.error on exactly
     the same conditions.
   - A C output buffer (pointer plus caller-known capacity) is modelled as
     a List: writing the first n entries replaces the first n elements and
     keeps the rest.
   - The external routines sincf, kaiser and besselj_0 are declared in
     liquid.internal.h and implemented outside the analyzed source; the
     functions below take them as explicit function parameters, so every
     theorem holds for all implementations of them. -/

/-- Model of the C library function lroundf: round to the nearest integer,
with ties rounded away from zero. -/
def lroundf (q : ℚ) : ℤ :=
  if q < 0 then -round (-q) else round q

/-- Embedding of estimate_req_filter_len (firdes.c lines 34 to 54).
Validates 0 < b and b at most 1/2 and slsl positive (otherwise the C code
prints and exits, modelled as Except.error), returns 2 when slsl < 8 and
otherwise the rounded value (slsl - 8) / (14 b) converted to an unsigned
integer. -/
def estimate_req_filter_len (b slsl : ℚ) : Except Unit ℕ :=
  if 1/2 < b ∨ b ≤ 0 then Except.error ()
  else if slsl ≤ 0 then Except.error ()
  else if slsl < 8 then Except.ok 2
  else Except.ok (lroundf ((slsl - 8) / (14 * b))).toNat

/-- Embedding of liquid_filter_autocorr (firdes.c lines 185 to 202).
The lag is replaced by its absolute value, lags at or beyond the filter
length give 0, and otherwise the accumulation loop computes the sum of
h[i] * h[i - lag] for i from lag to h_len - 1. -/
def liquid_filter_autocorr (h : List ℚ) (h_len : ℕ) (lag : ℤ) : ℚ :=
  if h_len ≤ lag.natAbs then 0
  else ∑ i in Finset.Ico lag.natAbs h_len, h.getD i 0 * h.getD (i - lag.natAbs) 0

/-- The normalized ISI term computed inside the loop of liquid_filter_isi
(firdes.c line 232 and 233): e = |autocorr(h, 2 k m + 1, i k) / rxx0| where
rxx0 is the zero-lag autocorrelation. -/
def isi_e (h : List ℚ) (k m i : ℕ) : ℚ :=
  |liquid_filter_autocorr h (2*k*m+1) ((i * k : ℕ) : ℤ) /
    liquid_filter_autocorr h (2*k*m+1) 0|

/-- The mean-square accumulator of the loop in liquid_filter_isi: after
iterations i = 1..n it holds the running sum of e i squared. -/
def isi_mse_acc (e : ℕ → ℚ) : ℕ → ℚ
  | 0 => 0
  | n+1 => isi_mse_acc e n + e (n+1) ^ 2

/-- The maximum accumulator of the loop in liquid_filter_isi: starts at 0,
is overwritten unconditionally at i = 1 and afterwards whenever the current
term strictly exceeds it (firdes.c lines 237 and 238). -/
def isi_max_acc (e : ℕ → ℚ) : ℕ → ℚ
  | 0 => 0
  | n+1 => if n + 1 = 1 ∨ isi_max_acc e n < e (n+1) then e (n+1) else isi_max_acc e n

/-- Embedding of liquid_filter_isi (firdes.c lines 214 to 243): runs the
loop for i = 1..2m, then writes the pair (mse, max) with
mse = accumulated sum / (2 m). -/
def liquid_filter_isi (h : List ℚ) (k m : ℕ) : ℚ × ℚ :=
  (isi_mse_acc (isi_e h k m) (2*m) / ((2*m : ℕ) : ℚ),
   isi_max_acc (isi_e h k m) (2*m))

/-- Embedding of kaiser_beta_slsl (firdes.c lines 58 to 72): takes the
absolute value of the input and applies the three-region empirical
approximation. -/
noncomputable def kaiser_beta_slsl (slsl : ℝ) : ℝ :=
  if 50 < |slsl| then 0.1102 * (|slsl| - 8.7)
  else if 21 < |slsl| then
    0.5842 * (|slsl| - 21) ^ (0.4 : ℝ) + 0.07886 * (|slsl| - 21)
  else 0

/-- The coefficient written at index i by fir_kaiser_window (firdes.c lines
103 to 116): sinc prototype at fc * t with t = i - (n-1)/2 + mu, multiplied
by the kaiser window at (i, n, beta, mu). -/
noncomputable def fir_kaiser_coef (sincf : ℝ → ℝ) (kaiser : ℕ → ℕ → ℝ → ℝ → ℝ)
    (n : ℕ) (fc slsl mu : ℝ) (i : ℕ) : ℝ :=
  sincf (fc * ((i : ℝ) - ((n - 1 : ℕ) : ℝ) / 2 + mu)) *
    kaiser i n (kaiser_beta_slsl slsl) mu

/-- Embedding of fir_kaiser_window (firdes.c lines 80 to 117): validates mu,
fc and n in the order of the source (exit modelled as Except.error), then
overwrites the first n entries of the caller buffer with the designed
coefficients and leaves the rest untouched. -/
noncomputable def fir_kaiser_window (sincf : ℝ → ℝ) (kaiser : ℕ → ℕ → ℝ → ℝ → ℝ)
    (n : ℕ) (fc slsl mu : ℝ) (h : List ℝ) : Except Unit (List ℝ) :=
  if mu < -(1/2) ∨ 1/2 < mu then Except.error ()
  else if fc < 0 ∨ 1 < fc then Except.error ()
  else if n = 0 then Except.error ()
  else Except.ok ((List.range n).map (fir_kaiser_coef sincf kaiser n fc slsl mu) ++ h.drop n)

/-- The coefficient written at index i by fir_design_doppler (firdes.c lines
135 to 152): with t = i - (n-1)/2, the Bessel term 1.5 * J0(|2 pi fd t|)
plus the Rice component 1.5 K / (K+1) * cos(2 pi fd t cos theta), windowed
by kaiser(i, n, 4, 0). -/
noncomputable def fir_doppler_coef (besselj_0 : ℝ → ℝ) (kaiser : ℕ → ℕ → ℝ → ℝ → ℝ)
    (n : ℕ) (fd K theta : ℝ) (i : ℕ) : ℝ :=
  (1.5 * besselj_0 |2 * Real.pi * fd * ((i : ℝ) - ((n - 1 : ℕ) : ℝ) / 2)| +
    1.5 * K / (K + 1) *
      Real.cos (2 * Real.pi * fd * ((i : ℝ) - ((n - 1 : ℕ) : ℝ) / 2) * Real.cos theta)) *
  kaiser i n 4 0

/-- Embedding of fir_design_doppler (firdes.c lines 126 to 153): no input
validation, overwrites the first n entries of the caller buffer with the
doppler filter coefficients and leaves the rest untouched. -/
noncomputable def fir_design_doppler (besselj_0 : ℝ → ℝ) (kaiser : ℕ → ℕ → ℝ → ℝ → ℝ)
    (n : ℕ) (fd K theta : ℝ) (h : List ℝ) : List ℝ :=
  (List.range n).map (fir_doppler_coef besselj_0 kaiser n fd K theta) ++ h.drop n

/- Helper lemmas -/

lemma lroundf_of_nonneg {q : ℚ} (hq : 0 ≤ q) : lroundf q = round q := by
  unfold lroundf
  rw [if_neg (not_lt.mpr hq)]

lemma round_nonneg_of_nonneg {q : ℚ} (hq : 0 ≤ q) : 0 ≤ round q := by
  rw [round_eq]
  exact Int.floor_nonneg.mpr (by linarith)

/-- C3: liquid_filter_autocorr on a vector of length L returns the sum of
h[i] * h[i - |lag|] for i from |lag| to L - 1 when |lag| < L, and returns 0
when |lag| is at least L; the function is total, so it never fails for any
integer lag or any length. -/
theorem liquid_filter_autocorr_spec (h : List ℚ) (lag : ℤ) :
    liquid_filter_autocorr h h.length lag =
      if lag.natAbs < h.length then
        ∑ i in Finset.Icc lag.natAbs (h.length - 1), h.getD i 0 * h.getD (i - lag.natAbs) 0
      else 0 := by
  unfold liquid_filter_autocorr
  rcases lt_or_ge lag.natAbs h.length with hlt | hge
  · rw [if_neg (by omega), if_pos hlt]
    have hset : Finset.Ico lag.natAbs h.length = Finset.Icc lag.natAbs (h.length - 1) := by
      ext x
      simp only [Finset.mem_Ico, Finset.mem_Icc]
      omega
    rw [hset]
  · rw [if_pos (by omega), if_neg (by omega)]

/-- C4: liquid_filter_autocorr is even in the lag: for every vector, every
length parameter and every integer lag, the value at lag equals the value at
the negated lag, because the code folds the lag to its absolute value. -/
theorem liquid_filter_autocorr_even (h : List ℚ) (h_len : ℕ) (lag : ℤ) :
    liquid_filter_autocorr h h_len lag = liquid_filter_autocorr h h_len (-lag) := by
  unfold liquid_filter_autocorr
  rw [Int.natAbs_neg]

/-- C5 counterexample: at b = 1/2 and slsl = 8 (both within the stated
parameter ranges), estimate_req_filter_len returns 0, which is less than 2,
so the result is not clamped to a minimum of 2 taps. -/
theorem estimate_req_filter_len_no_min_clamp :
    estimate_req_filter_len (1/2) 8 = Except.ok 0 ∧ (0 : ℕ) < 2 := by
  constructor
  · unfold estimate_req_filter_len lroundf
    norm_num [round_eq]
  · norm_num

/-- C5 amended: for every b in (0, 1/2] and slsl > 0, the function succeeds
and returns 2 when slsl < 8 and the rounded value (slsl - 8) / (14 b)
(a nonnegative integer, ties rounded away from zero) when slsl is at least
8; there is no further clamping, so results below 2 are possible in the
second branch. -/
theorem estimate_req_filter_len_spec (b slsl : ℚ) (hb0 : 0 < b) (hb : b ≤ 1/2)
    (hs : 0 < slsl) :
    estimate_req_filter_len b slsl =
      (if slsl < 8 then Except.ok 2
       else Except.ok (round ((slsl - 8) / (14 * b))).toNat) ∧
    (8 ≤ slsl → 0 ≤ round ((slsl - 8) / (14 * b))) := by
  have harg : 8 ≤ slsl → 0 ≤ (slsl - 8) / (14 * b) := fun h8 => by
    apply div_nonneg (by linarith) (by linarith)
  constructor
  · unfold estimate_req_filter_len
    rw [if_neg (by push_neg; exact ⟨by linarith, by linarith⟩),
        if_neg (not_le.mpr hs)]
    rcases lt_or_ge slsl 8 with h8 | h8
    · rw [if_pos h8, if_pos h8]
    · rw [if_neg (not_lt.mpr h8), if_neg (not_lt.mpr h8),
          lroundf_of_nonneg (harg h8)]
  · exact fun h8 => round_nonneg_of_nonneg (harg h8)

/-- C5 witness: the amended statement instantiated at b = 1/2, slsl = 40. -/
theorem estimate_req_filter_len_spec_witness :
    estimate_req_filter_len (1/2) 40 =
      (if (40 : ℚ) < 8 then Except.ok 2
       else Except.ok (round (((40 : ℚ) - 8) / (14 * (1/2)))).toNat) ∧
    ((8 : ℚ) ≤ 40 → 0 ≤ round (((40 : ℚ) - 8) / (14 * (1/2)))) :=
  estimate_req_filter_len_spec (1/2) 40 (by norm_num) (by norm_num) (by norm_num)

/-- C6 counterexample: estimate_req_filter_len at b = 1/10 and slsl = 60
does not return 38. -/
theorem estimate_req_filter_len_b01_slsl60_ne_38 :
    estimate_req_filter_len (1/10) 60 ≠ Except.ok 38 := by
  unfold estimate_req_filter_len lroundf
  norm_num [round_eq]
  decide

/-- C6 amended: estimate_req_filter_len at b = 1/10 and slsl = 60 returns
37, the rounding of (60 - 8) / (14 * 0.1) = 37.142857... to the nearest
integer. -/
theorem estimate_req_filter_len_b01_slsl60 :
    estimate_req_filter_len (1/10) 60 = Except.ok 37 := by
  unfold estimate_req_filter_len lroundf
  norm_num [round_eq]
  decide

lemma isi_mse_acc_eq_sum (e : ℕ → ℚ) (n : ℕ) :
    isi_mse_acc e n = ∑ i in Finset.Icc 1 n, e i ^ 2 := by
  induction n with
  | zero => simp [isi_mse_acc]
  | succ n ih =>
      rw [isi_mse_acc, ih, Finset.sum_Icc_succ_top (by omega : (1:ℕ) ≤ n + 1)]

lemma isi_max_acc_eq_sup (e : ℕ → ℚ) (n : ℕ) (hn : 1 ≤ n) :
    isi_max_acc e n = (Finset.Icc 1 n).sup' (Finset.nonempty_Icc.mpr hn) e := by
  induction n with
  | zero => omega
  | succ n ih =>
      rcases Nat.eq_zero_or_pos n with h0 | hpos
      · subst h0
        rw [isi_max_acc, if_pos (Or.inl rfl)]
        simp
      · have hins : Finset.Icc 1 (n+1) = insert (n+1) (Finset.Icc 1 n) := by
          ext x
          simp only [Finset.mem_Icc, Finset.mem_insert]
          omega
        have hsup : (Finset.Icc 1 (n+1)).sup' (Finset.nonempty_Icc.mpr (by omega)) e
            = e (n+1) ⊔ (Finset.Icc 1 n).sup' (Finset.nonempty_Icc.mpr hpos) e := by
          rw [Finset.sup'_congr _ hins (fun _ _ => rfl),
              Finset.sup'_insert (Finset.nonempty_Icc.mpr hpos)]
        rw [isi_max_acc, ih hpos, hsup]
        rcases lt_or_le (Finset.sup' (Finset.Icc 1 n) (Finset.nonempty_Icc.mpr hpos) e) (e (n+1)) with hlt | hle
        · rw [if_pos (Or.inr hlt), sup_eq_left.mpr hlt.le]
        · rw [if_neg (by push_neg; exact ⟨by omega, hle⟩), sup_eq_right.mpr hle]

/-- C1: under the stated preconditions (vector length exactly 2 k m + 1,
m at least 1, nonzero zero-lag autocorrelation), liquid_filter_isi writes
the pair whose first component is the mean of the squares of
e i = |r(i k) / r(0)| over i = 1..2m and whose second component is the
greatest of the e i, where r is liquid_filter_autocorr at length 2 k m + 1. -/
theorem liquid_filter_isi_spec (h : List ℚ) (k m : ℕ) (hm : 1 ≤ m)
    (hlen : h.length = 2*k*m+1)
    (hr0 : liquid_filter_autocorr h (2*k*m+1) 0 ≠ 0) :
    (liquid_filter_isi h k m).1 =
      (∑ i in Finset.Icc 1 (2*m),
          |liquid_filter_autocorr h (2*k*m+1) ((i * k : ℕ) : ℤ) /
            liquid_filter_autocorr h (2*k*m+1) 0| ^ 2) / ((2*m : ℕ) : ℚ) ∧
    IsGreatest {q : ℚ | ∃ i ∈ Finset.Icc 1 (2*m),
        q = |liquid_filter_autocorr h (2*k*m+1) ((i * k : ℕ) : ℤ) /
          liquid_filter_autocorr h (2*k*m+1) 0|}
      (liquid_filter_isi h k m).2 := by
  have hne : (Finset.Icc 1 (2*m)).Nonempty := Finset.nonempty_Icc.mpr (by omega)
  constructor
  · unfold liquid_filter_isi
    rw [isi_mse_acc_eq_sum]
    rfl
  · have hmax : (liquid_filter_isi h k m).2
        = (Finset.Icc 1 (2*m)).sup' hne (isi_e h k m) := by
      unfold liquid_filter_isi
      rw [isi_max_acc_eq_sup _ _ (by omega : 1 ≤ 2*m)]
    constructor
    · obtain ⟨j, hj, hjeq⟩ := Finset.exists_mem_eq_sup' hne (isi_e h k m)
      refine ⟨j, hj, ?_⟩
      rw [hmax, hjeq]
      exact rfl
    · rintro q ⟨i, hi, rfl⟩
      rw [hmax]
      exact Finset.le_sup' (isi_e h k m) hi

/-- C1 witness: the theorem instantiated at the unit-impulse vector
[0,0,1,0,0] with k = 2 and m = 1 (length 2*2*1+1 = 5), whose zero-lag
autocorrelation is 1. -/
theorem liquid_filter_isi_spec_witness :
    (liquid_filter_isi [0,0,1,0,0] 2 1).1 =
      (∑ i in Finset.Icc 1 (2*1),
          |liquid_filter_autocorr [0,0,1,0,0] (2*2*1+1) ((i * 2 : ℕ) : ℤ) /
            liquid_filter_autocorr [0,0,1,0,0] (2*2*1+1) 0| ^ 2) / ((2*1 : ℕ) : ℚ) ∧
    IsGreatest {q : ℚ | ∃ i ∈ Finset.Icc 1 (2*1),
        q = |liquid_filter_autocorr [0,0,1,0,0] (2*2*1+1) ((i * 2 : ℕ) : ℤ) /
          liquid_filter_autocorr [0,0,1,0,0] (2*2*1+1) 0|}
      (liquid_filter_isi [0,0,1,0,0] 2 1).2 :=
  liquid_filter_isi_spec [0,0,1,0,0] 2 1 (by norm_num) (by norm_num)
    (by norm_num [liquid_filter_autocorr, Finset.sum_Ico_eq_sum_range, Finset.sum_range_succ])

lemma getD_replicate_zero (n i : ℕ) : (List.replicate n (0:ℚ)).getD i 0 = 0 := by
  induction n generalizing i with
  | zero => simp
  | succ n ih =>
      cases i with
      | zero => simp [List.replicate]
      | succ i => simp [List.replicate, ih i]

lemma autocorr_replicate_zero (n h_len : ℕ) (lag : ℤ) :
    liquid_filter_autocorr (List.replicate n 0) h_len lag = 0 := by
  unfold liquid_filter_autocorr
  split
  · rfl
  · simp [getD_replicate_zero]

lemma isi_e_replicate_zero (k m i : ℕ) :
    isi_e (List.replicate (2*k*m+1) 0) k m i = 0 := by
  simp [isi_e, autocorr_replicate_zero]

lemma isi_mse_acc_of_zero (e : ℕ → ℚ) (he : ∀ i, e i = 0) (n : ℕ) :
    isi_mse_acc e n = 0 := by
  induction n with
  | zero => rfl
  | succ n ih => rw [isi_mse_acc, ih, he]; ring

lemma isi_max_acc_of_zero (e : ℕ → ℚ) (he : ∀ i, e i = 0) (n : ℕ) :
    isi_max_acc e n = 0 := by
  induction n with
  | zero => rfl
  | succ n ih =>
      rw [isi_max_acc, ih, he]
      split <;> rfl

/-- C2: liquid_filter_isi has no guard on the zero-lag reference: on the
all-zero coefficient vector of length 2 k m + 1 the reference r(0) computed
inside the function is 0, every loop iteration divides by this zero
reference, and the function still returns a defined pair instead of
reporting a degenerate-input failure (its result type carries no error
case; in the rational-valued model division by zero yields 0, whereas the
C float code produces a non-finite value there). -/
theorem liquid_filter_isi_zero_vector (k m : ℕ) (hm : 1 ≤ m) :
    liquid_filter_autocorr (List.replicate (2*k*m+1) 0) (2*k*m+1) 0 = 0 ∧
    liquid_filter_isi (List.replicate (2*k*m+1) 0) k m = (0, 0) := by
  refine ⟨autocorr_replicate_zero _ _ _, ?_⟩
  unfold liquid_filter_isi
  rw [isi_mse_acc_of_zero _ (isi_e_replicate_zero k m),
      isi_max_acc_of_zero _ (isi_e_replicate_zero k m)]
  simp

/-- C2 witness: the theorem instantiated at k = 2, m = 1 (vector of five
zeros). -/
theorem liquid_filter_isi_zero_vector_witness :
    liquid_filter_autocorr (List.replicate (2*2*1+1) 0) (2*2*1+1) 0 = 0 ∧
    liquid_filter_isi (List.replicate (2*2*1+1) 0) 2 1 = (0, 0) :=
  liquid_filter_isi_zero_vector 2 1 (by norm_num)

/-- C10: at m = 0 the loop of liquid_filter_isi runs zero times, so the
accumulated mean-square sum is 0 and the final division divides it by
2 m = 0 (a zero divisor, 0 in the rational model), while the maximum output
stays 0; for every m at least 1 the divisor 2 m is strictly positive. -/
theorem liquid_filter_isi_m_zero (h : List ℚ) (k : ℕ) :
    isi_mse_acc (isi_e h k 0) (2*0) = 0 ∧
    ((2*0 : ℕ) : ℚ) = 0 ∧
    liquid_filter_isi h k 0 = (isi_mse_acc (isi_e h k 0) (2*0) / ((2*0 : ℕ) : ℚ), 0) ∧
    (∀ m : ℕ, 1 ≤ m → (0 : ℚ) < ((2*m : ℕ) : ℚ)) := by
  refine ⟨rfl, by norm_num, rfl, ?_⟩
  intro m hm
  have h2m : 0 < 2*m := by omega
  exact_mod_cast h2m

/-- C10 witness: the theorem instantiated at the empty vector with k = 0,
and the divisor positivity instantiated at m = 1. -/
theorem liquid_filter_isi_m_zero_witness :
    isi_mse_acc (isi_e [] 0 0) (2*0) = 0 ∧ (0 : ℚ) < ((2*1 : ℕ) : ℚ) :=
  ⟨(liquid_filter_isi_m_zero [] 0).1,
   (liquid_filter_isi_m_zero [] 0).2.2.2 1 (by norm_num)⟩

/-- C7: kaiser_beta_slsl first folds its input to s = |slsl| and then
returns 0.1102 (s - 8.7) when s > 50, the two-term empirical expression
when 21 < s and s is at most 50, and 0 when s is at most 21; the function
is total, so it never fails for any real input. -/
theorem kaiser_beta_slsl_spec (slsl : ℝ) :
    (50 < |slsl| → kaiser_beta_slsl slsl = 0.1102 * (|slsl| - 8.7)) ∧
    (21 < |slsl| ∧ |slsl| ≤ 50 →
      kaiser_beta_slsl slsl =
        0.5842 * (|slsl| - 21) ^ (0.4 : ℝ) + 0.07886 * (|slsl| - 21)) ∧
    (|slsl| ≤ 21 → kaiser_beta_slsl slsl = 0) := by
  unfold kaiser_beta_slsl
  refine ⟨fun hgt => if_pos hgt, fun hmid => ?_, fun hlo => ?_⟩
  · rw [if_neg (by linarith [hmid.2]), if_pos hmid.1]
  · rw [if_neg (by linarith), if_neg (by linarith)]

/-- C7 witness: the first region instantiated at slsl = 60. -/
theorem kaiser_beta_slsl_spec_witness :
    kaiser_beta_slsl 60 = 0.1102 * (|(60 : ℝ)| - 8.7) :=
  (kaiser_beta_slsl_spec 60).1 (by rw [abs_of_nonneg] <;> norm_num)

/-- C8: fir_kaiser_window fails exactly when n = 0, fc is outside [0, 1],
or mu is outside [-1/2, 1/2]; on every valid input the returned buffer is
the first n design coefficients followed by the untouched tail of the
caller buffer, so exactly the first n entries are overwritten. -/
theorem fir_kaiser_window_spec (sincf : ℝ → ℝ) (kaiser : ℕ → ℕ → ℝ → ℝ → ℝ)
    (n : ℕ) (fc slsl mu : ℝ) (h : List ℝ) :
    (fir_kaiser_window sincf kaiser n fc slsl mu h = Except.error () ↔
      (n = 0 ∨ fc < 0 ∨ 1 < fc ∨ mu < -(1/2) ∨ 1/2 < mu)) ∧
    (∀ out, fir_kaiser_window sincf kaiser n fc slsl mu h = Except.ok out →
      out = (List.range n).map (fir_kaiser_coef sincf kaiser n fc slsl mu) ++ h.drop n) := by
  unfold fir_kaiser_window
  constructor
  · split_ifs with h1 h2 h3
    · exact iff_of_true rfl (by tauto)
    · exact iff_of_true rfl (by tauto)
    · exact iff_of_true rfl (Or.inl h3)
    · refine iff_of_false (by simp) ?_
      push_neg at h1 h2
      rintro (hn0 | hfc | hfc | hmu | hmu)
      · exact h3 hn0
      · linarith [h2.1]
      · linarith [h2.2]
      · linarith [h1.1]
      · linarith [h1.2]
  · intro out hout
    split_ifs at hout with h1 h2 h3
    exact (Except.ok.inj hout).symm

/-- C8 witness: a valid call (n = 1, fc = 0, slsl = 0, mu = 0) on the
two-element buffer [3, 7] returns the designed first entry followed by the
untouched tail. -/
theorem fir_kaiser_window_spec_witness :
    fir_kaiser_window (fun x => x) (fun _ _ _ _ => 1) 1 0 0 0 [3, 7] =
      Except.ok ((List.range 1).map (fir_kaiser_coef (fun x => x) (fun _ _ _ _ => 1) 1 0 0 0)
        ++ ([3, 7] : List ℝ).drop 1) := by
  have hcompute : fir_kaiser_window (fun x => x) (fun _ _ _ _ => 1) 1 0 0 0 [3, 7] =
      Except.ok ((List.range 1).map (fir_kaiser_coef (fun x => x) (fun _ _ _ _ => 1) 1 0 0 0)
        ++ ([3, 7] : List ℝ).drop 1) := by
    unfold fir_kaiser_window
    rw [if_neg (by norm_num), if_neg (by norm_num), if_neg (by norm_num)]
  rw [hcompute,
      (fir_kaiser_window_spec (fun x => x) (fun _ _ _ _ => 1) 1 0 0 0 [3, 7]).2 _ hcompute]

/-- C9: fir_design_doppler performs no input validation (it is a total
function on all parameter values) and the entry written at each tap i < n
is the sum of the Bessel term 1.5 J0(|2 pi fd t|) and the Rice term
1.5 K / (K + 1) cos(2 pi fd t cos theta), with t = i - (n - 1)/2, windowed
by the kaiser window at fixed beta = 4 and zero fractional offset. -/
theorem fir_design_doppler_spec (besselj_0 : ℝ → ℝ) (kaiser : ℕ → ℕ → ℝ → ℝ → ℝ)
    (n : ℕ) (fd K theta : ℝ) (h : List ℝ) (i : ℕ) (hi : i < n) :
    (fir_design_doppler besselj_0 kaiser n fd K theta h).getD i 0 =
      (1.5 * besselj_0 |2 * Real.pi * fd * ((i : ℝ) - ((n : ℝ) - 1) / 2)| +
        1.5 * K / (K + 1) *
          Real.cos (2 * Real.pi * fd * ((i : ℝ) - ((n : ℝ) - 1) / 2) * Real.cos theta)) *
      kaiser i n 4 0 := by
  have hn : 1 ≤ n := by omega
  have hcast : ((n - 1 : ℕ) : ℝ) = (n : ℝ) - 1 := by
    rw [Nat.cast_sub hn, Nat.cast_one]
  unfold fir_design_doppler
  rw [List.getD_append _ _ _ _ (by simpa using hi),
      List.getD_eq_getElem _ _ (by simpa using hi)]
  simp only [List.getElem_map, List.getElem_range]
  unfold fir_doppler_coef
  rw [hcast]

/-- C9 witness: the theorem instantiated at n = 1, i = 0 with constant
external functions and zero parameters. -/
theorem fir_design_doppler_spec_witness :
    (fir_design_doppler (fun _ => 1) (fun _ _ _ _ => 1) 1 0 0 0 []).getD 0 0 =
      (1.5 * (fun _ => (1:ℝ)) |2 * Real.pi * 0 * (((0:ℕ) : ℝ) - (((1:ℕ) : ℝ) - 1) / 2)| +
        1.5 * 0 / (0 + 1) *
          Real.cos (2 * Real.pi * 0 * (((0:ℕ) : ℝ) - (((1:ℕ) : ℝ) - 1) / 2) * Real.cos 0)) *
      (fun _ _ _ _ => (1:ℝ)) 0 1 4 0 :=
  fir_design_doppler_spec (fun _ => 1) (fun _ _ _ _ => 1) 1 0 0 0 [] 0 (by norm_num)
